import Mathlib

/-!
Shallow embedding of the dinero.js scale-aware monetary arithmetic engine.

The repository sample contains the currency descriptors `BSD` and `HUF`
(packages/currencies/src/iso4217/) and the documentation page
website/data/docs/core-concepts/scale.mdx.  The engine itself (create, add,
subtract, multiply, allocate, trimScale, comparisons) is not part of the
sampled sources, so its operations are modelled from the specification's
algorithms, as marked on each definition.  Amounts are embedded as `Int`,
scales as `Nat`.
-/

/-- A currency descriptor: identifier code, base (radix of the minor-unit
system) and exponent (the currency's natural scale). -/
structure Currency where
  code : String
  base : Nat
  exponent : Nat
deriving DecidableEq

/-- Bahamian dollar, from packages/currencies/src/iso4217/bsd.ts. -/
def BSD : Currency := { code := "BSD", base := 10, exponent := 2 }

/-- Hungarian forint, from packages/currencies/src/iso4217/huf.ts. -/
def HUF : Currency := { code := "HUF", base := 10, exponent := 2 }

/-- United States dollar, as shown in the snapshots of
website/data/docs/core-concepts/scale.mdx (base 10, exponent 2). -/
def USD : Currency := { code := "USD", base := 10, exponent := 2 }

/-- Euro, as shown in the snapshots of
website/data/docs/core-concepts/scale.mdx (base 10, exponent 2). -/
def EUR : Currency := { code := "EUR", base := 10, exponent := 2 }

/-- A Monetary Value: integer amount, currency descriptor and non-negative
scale, representing the rational number amount / base ^ scale. -/
structure Dinero where
  amount : Int
  currency : Currency
  scale : Nat
deriving DecidableEq

/-- A scaled multiplier for `multiply`: an integer amount with a
non-negative scale, standing for amount / 10 ^ scale. -/
structure ScaledAmount where
  amount : Int
  scale : Nat
deriving DecidableEq

/-- A plain serializable projection of a Monetary Value. -/
structure Snapshot where
  amount : Int
  currency : Currency
  scale : Nat
deriving DecidableEq

/-- The error kinds of §7 of the specification. -/
inductive DineroError where
  | currencyMismatch
  | invalidScale
  | invalidRatios
  | unsafeOperation
deriving DecidableEq

deriving instance DecidableEq for Except

/-- Modelled from the spec: the construction API missing from the sampled
sources.  `create(amount, currency, scale?)` defaults the scale to the
currency exponent; a negative scale is unrepresentable in `Nat`. -/
def dinero (amount : Int) (currency : Currency) (scale : Option Nat) : Dinero :=
  { amount := amount, currency := currency, scale := scale.getD currency.exponent }

/-- Modelled from the spec: the snapshot API missing from the sampled
sources, a plain projection of the Monetary Value. -/
def toSnapshot (v : Dinero) : Snapshot :=
  { amount := v.amount, currency := v.currency, scale := v.scale }

/-- Modelled from the spec: the Scale Normalizer's raising step missing from
the sampled sources.  Raising a value from scale s to s' multiplies the
amount by base ^ (s' - s); it is only ever used with s' at least s. -/
def raiseScale (v : Dinero) (newScale : Nat) : Dinero :=
  { amount := v.amount * (v.currency.base : Int) ^ (newScale - v.scale)
    currency := v.currency
    scale := newScale }

/-- Modelled from the spec: `add` missing from the sampled sources.
Normalize both operands to the maximum scale, then add the amounts; fail
with CurrencyMismatch when the currencies differ. -/
def add (a b : Dinero) : Except DineroError Dinero :=
  if a.currency = b.currency then
    let m := max a.scale b.scale
    .ok { amount := (raiseScale a m).amount + (raiseScale b m).amount
          currency := a.currency
          scale := m }
  else .error .currencyMismatch

/-- Modelled from the spec: `subtract` missing from the sampled sources.
Normalize both operands to the maximum scale, then subtract the amounts;
fail with CurrencyMismatch when the currencies differ. -/
def subtract (a b : Dinero) : Except DineroError Dinero :=
  if a.currency = b.currency then
    let m := max a.scale b.scale
    .ok { amount := (raiseScale a m).amount - (raiseScale b m).amount
          currency := a.currency
          scale := m }
  else .error .currencyMismatch

/-- Modelled from the spec: `multiply` missing from the sampled sources.
Multiply by a scaled multiplier: amounts multiply, scales add, exactly. -/
def multiply (v : Dinero) (m : ScaledAmount) : Dinero :=
  { amount := v.amount * m.amount
    currency := v.currency
    scale := v.scale + m.scale }

/-- Modelled from the spec: the comparison entry point missing from the
sampled sources.  Normalize scales, compare amounts; fail with
CurrencyMismatch when the currencies differ. -/
def compareValues (a b : Dinero) : Except DineroError Ordering :=
  if a.currency = b.currency then
    let m := max a.scale b.scale
    .ok (Ord.compare (raiseScale a m).amount (raiseScale b m).amount)
  else .error .currencyMismatch

/-- Modelled from the spec: `equal` missing from the sampled sources. -/
def equal (a b : Dinero) : Except DineroError Bool :=
  if a.currency = b.currency then
    let m := max a.scale b.scale
    .ok (decide ((raiseScale a m).amount = (raiseScale b m).amount))
  else .error .currencyMismatch

/-- Modelled from the spec: `greaterThan` missing from the sampled sources. -/
def greaterThan (a b : Dinero) : Except DineroError Bool :=
  if a.currency = b.currency then
    let m := max a.scale b.scale
    .ok (decide ((raiseScale b m).amount < (raiseScale a m).amount))
  else .error .currencyMismatch

/-- Modelled from the spec: `lessThan` missing from the sampled sources. -/
def lessThan (a b : Dinero) : Except DineroError Bool :=
  if a.currency = b.currency then
    let m := max a.scale b.scale
    .ok (decide ((raiseScale a m).amount < (raiseScale b m).amount))
  else .error .currencyMismatch

/-- Modelled from the spec: `greaterThanOrEqual` missing from the sampled
sources. -/
def greaterThanOrEqual (a b : Dinero) : Except DineroError Bool :=
  if a.currency = b.currency then
    let m := max a.scale b.scale
    .ok (decide ((raiseScale b m).amount ≤ (raiseScale a m).amount))
  else .error .currencyMismatch

/-- Modelled from the spec: `lessThanOrEqual` missing from the sampled
sources. -/
def lessThanOrEqual (a b : Dinero) : Except DineroError Bool :=
  if a.currency = b.currency then
    let m := max a.scale b.scale
    .ok (decide ((raiseScale a m).amount ≤ (raiseScale b m).amount))
  else .error .currencyMismatch

/-- Modelled from the spec: the ratio validation of the Allocator missing
from the sampled sources.  Ratios are invalid when empty, all zero, or
containing a negative entry. -/
def hasInvalidRatios (ratios : List Int) : Prop :=
  ratios = [] ∨ (∀ r ∈ ratios, r = 0) ∨ (∃ r ∈ ratios, r < 0)

instance (ratios : List Int) : Decidable (hasInvalidRatios ratios) :=
  inferInstanceAs (Decidable (ratios = [] ∨ (∀ r ∈ ratios, r = 0) ∨ (∃ r ∈ ratios, r < 0)))

/-- Modelled from the spec: the remainder-distribution priority of the
Allocator.  Index i comes before index j when its ratio is larger, ties
broken by original index. -/
def ratioOrder (ratios : List Int) (i j : Nat) : Prop :=
  ratios.getD j 0 < ratios.getD i 0 ∨ (ratios.getD i 0 = ratios.getD j 0 ∧ i ≤ j)

instance (ratios : List Int) : DecidableRel (ratioOrder ratios) := fun i j =>
  inferInstanceAs (Decidable (ratios.getD j 0 < ratios.getD i 0 ∨ (ratios.getD i 0 = ratios.getD j 0 ∧ i ≤ j)))

/-- Modelled from the spec: the positions 0..n-1 sorted in ratio-descending
order, ties broken by original index. -/
def allocationOrder (ratios : List Int) : List Nat :=
  List.insertionSort (ratioOrder ratios) (List.range ratios.length)

/-- Modelled from the spec: each base share is floor(amount * ratio / total),
computed with floor integer division. -/
def baseShares (amount total : Int) (ratios : List Int) : List Int :=
  ratios.map (fun r => amount * r / total)

/-- Add one unit to the entry at position i (unchanged when out of range). -/
def incrementAt (l : List Int) (i : Nat) : List Int :=
  l.set i (l.getD i 0 + 1)

/-- Modelled from the spec: distribute the leftover remainder one unit at a
time to the first parts in the given priority order. -/
def distribute (shares : List Int) (order : List Nat) (k : Nat) : List Int :=
  (order.take k).foldl incrementAt shares

/-- Modelled from the spec: the integer-level Allocator.  Base shares by
floor division, then the largest-remainder distribution. -/
def allocateParts (amount : Int) (ratios : List Int) : List Int :=
  let total := ratios.sum
  let shares := baseShares amount total ratios
  let remainder := (amount - shares.sum).toNat
  distribute shares (allocationOrder ratios) remainder

/-- Modelled from the spec: `allocate` missing from the sampled sources.
The ratio scale raises the value to scale v.scale + ratioScale, then the
raised amount is split by the integer ratios; invalid ratios fail with
InvalidRatios. -/
def allocate (v : Dinero) (ratios : List Int) (ratioScale : Nat) :
    Except DineroError (List Dinero) :=
  if hasInvalidRatios ratios then .error .invalidRatios
  else
    .ok ((allocateParts (v.amount * (v.currency.base : Int) ^ ratioScale) ratios).map
      (fun a => { amount := a, currency := v.currency, scale := v.scale + ratioScale }))

/-- Modelled from the spec: the Scale Trimmer loop missing from the sampled
sources.  While the amount divides evenly by the base and the scale exceeds
the exponent, divide the amount by the base and decrement the scale.  The
fuel argument bounds the iteration count; `trimScale` passes the scale
itself, which always suffices. -/
def trimGo (base exponent : Nat) : Nat → Int → Nat → Int × Nat
  | 0, a, s => (a, s)
  | fuel + 1, a, s =>
    if exponent < s ∧ a % (base : Int) = 0 then
      trimGo base exponent fuel (a / (base : Int)) (s - 1)
    else (a, s)

/-- Modelled from the spec: `trimScale` missing from the sampled sources. -/
def trimScale (v : Dinero) : Dinero :=
  let p := trimGo v.currency.base v.currency.exponent v.scale v.amount v.scale
  { amount := p.1, currency := v.currency, scale := p.2 }

/-! ### Lemmas about the allocation distribution -/

theorem incrementAt_length (l : List Int) (i : Nat) :
    (incrementAt l i).length = l.length := by
  simp [incrementAt]

theorem incrementAt_sum (l : List Int) (i : Nat) (h : i < l.length) :
    (incrementAt l i).sum = l.sum + 1 := by
  induction l generalizing i with
  | nil => simp at h
  | cons x xs ih =>
    cases i with
    | zero =>
      simp [incrementAt]
      ring
    | succ n =>
      have hn : n < xs.length := by simpa using h
      have hstep : incrementAt (x :: xs) (n + 1) = x :: incrementAt xs n := by
        simp [incrementAt]
      rw [hstep, List.sum_cons, List.sum_cons, ih n hn]
      ring

theorem foldl_incrementAt_length (order : List Nat) (l : List Int) :
    (order.foldl incrementAt l).length = l.length := by
  induction order generalizing l with
  | nil => rfl
  | cons i os ih => rw [List.foldl_cons, ih, incrementAt_length]

theorem foldl_incrementAt_sum (order : List Nat) (l : List Int)
    (h : ∀ i ∈ order, i < l.length) :
    (order.foldl incrementAt l).sum = l.sum + (order.length : Int) := by
  induction order generalizing l with
  | nil => simp
  | cons i os ih =>
    have hi : i < l.length := h i (by simp)
    have hos : ∀ j ∈ os, j < (incrementAt l i).length := by
      intro j hj
      rw [incrementAt_length]
      exact h j (by simp [hj])
    rw [List.foldl_cons, ih _ hos, incrementAt_sum l i hi]
    push_cast [List.length_cons]
    ring

theorem allocationOrder_perm (ratios : List Int) :
    (allocationOrder ratios).Perm (List.range ratios.length) :=
  List.perm_insertionSort _ _

theorem allocationOrder_length (ratios : List Int) :
    (allocationOrder ratios).length = ratios.length := by
  rw [(allocationOrder_perm ratios).length_eq, List.length_range]

theorem mem_allocationOrder (ratios : List Int) (i : Nat)
    (h : i ∈ allocationOrder ratios) : i < ratios.length := by
  have hm := (allocationOrder_perm ratios).mem_iff.mp h
  simpa [List.mem_range] using hm

theorem baseShares_length (a T : Int) (ratios : List Int) :
    (baseShares a T ratios).length = ratios.length := by
  simp [baseShares]

theorem baseShares_sum_identity (a T : Int) (ratios : List Int) :
    T * (baseShares a T ratios).sum + (ratios.map (fun r => a * r % T)).sum
      = a * ratios.sum := by
  induction ratios with
  | nil => simp [baseShares]
  | cons r rs ih =>
    simp only [baseShares, List.map_cons, List.sum_cons] at ih ⊢
    calc T * (a * r / T + (rs.map (fun r => a * r / T)).sum)
          + (a * r % T + (rs.map (fun r => a * r % T)).sum)
        = (T * (a * r / T) + a * r % T)
          + (T * (rs.map (fun r => a * r / T)).sum + (rs.map (fun r => a * r % T)).sum) := by
          ring
      _ = a * r + a * rs.sum := by rw [Int.ediv_add_emod, ih]
      _ = a * (r + rs.sum) := by ring

theorem emod_sum_nonneg (a T : Int) (hT : 0 < T) (ratios : List Int) :
    0 ≤ (ratios.map (fun r => a * r % T)).sum := by
  apply List.sum_nonneg
  intro x hx
  simp only [List.mem_map] at hx
  obtain ⟨r, _, rfl⟩ := hx
  exact Int.emod_nonneg _ (ne_of_gt hT)

theorem emod_sum_le (a T : Int) (hT : 0 < T) (ratios : List Int) :
    (ratios.map (fun r => a * r % T)).sum ≤ (ratios.length : Int) * (T - 1) := by
  induction ratios with
  | nil => simp
  | cons r rs ih =>
    simp only [List.map_cons, List.sum_cons, List.length_cons]
    have h1 : a * r % T ≤ T - 1 := by
      have h2 := Int.emod_lt_of_pos (a * r) hT
      omega
    have h3 : ((rs.length : Int) + 1) * (T - 1) = (rs.length : Int) * (T - 1) + (T - 1) := by
      ring
    push_cast
    linarith

theorem valid_ratios_sum_pos (ratios : List Int) (h : ¬ hasInvalidRatios ratios) :
    0 < ratios.sum := by
  simp only [hasInvalidRatios, not_or] at h
  obtain ⟨hne, hnz, hneg⟩ := h
  push_neg at hnz hneg
  obtain ⟨r, hr, hr0⟩ := hnz
  have hrpos : 0 < r := lt_of_le_of_ne (hneg r hr) (Ne.symm hr0)
  have hle : r ≤ ratios.sum := List.single_le_sum (fun x hx => hneg x hx) r hr
  linarith

theorem allocateParts_length (a : Int) (ratios : List Int) :
    (allocateParts a ratios).length = ratios.length := by
  unfold allocateParts distribute
  rw [foldl_incrementAt_length, baseShares_length]

theorem allocateParts_sum (a : Int) (ratios : List Int)
    (h : ¬ hasInvalidRatios ratios) :
    (allocateParts a ratios).sum = a := by
  have hT : 0 < ratios.sum := valid_ratios_sum_pos ratios h
  have hne : ratios ≠ [] := by
    intro hnil
    exact h (Or.inl hnil)
  have hn : 0 < ratios.length := List.length_pos.mpr hne
  set T := ratios.sum with hTdef
  set S := (baseShares a T ratios).sum with hSdef
  set M := (ratios.map (fun r => a * r % T)).sum with hMdef
  have hid : T * S + M = a * T := baseShares_sum_identity a T ratios
  have hM0 : 0 ≤ M := emod_sum_nonneg a T hT ratios
  have hMle : M ≤ (ratios.length : Int) * (T - 1) := emod_sum_le a T hT ratios
  have hTr : T * (a - S) = M := by ring_nf; linarith
  have hrem0 : 0 ≤ a - S := by
    by_contra hlt
    push_neg at hlt
    have hneg : T * (a - S) < 0 := mul_neg_of_pos_of_neg hT hlt
    rw [hTr] at hneg
    linarith
  have hremlt : a - S < (ratios.length : Int) := by
    have hn1 : (1 : Int) ≤ (ratios.length : Int) := by exact_mod_cast hn
    have hlt : T * (a - S) < T * (ratios.length : Int) := by
      rw [hTr]
      calc M ≤ (ratios.length : Int) * (T - 1) := hMle
        _ = (ratios.length : Int) * T - (ratios.length : Int) := by ring
        _ < (ratios.length : Int) * T := by linarith
        _ = T * (ratios.length : Int) := by ring
    exact lt_of_mul_lt_mul_left hlt (le_of_lt hT)
  have hk : ((a - S).toNat : Int) = a - S := Int.toNat_of_nonneg hrem0
  have hkle : (a - S).toNat ≤ ratios.length := by
    have := (Int.toNat_lt hrem0).mpr hremlt
    omega
  have hvalid : ∀ i ∈ (allocationOrder ratios).take (a - S).toNat,
      i < (baseShares a T ratios).length := by
    intro i hi
    rw [baseShares_length]
    exact mem_allocationOrder ratios i (List.take_subset _ _ hi)
  have htklen : ((allocationOrder ratios).take (a - S).toNat).length = (a - S).toNat := by
    rw [List.length_take, allocationOrder_length]
    omega
  show (List.foldl incrementAt (baseShares a T ratios)
      (List.take (a - S).toNat (allocationOrder ratios))).sum = a
  rw [foldl_incrementAt_sum _ _ hvalid, ← hSdef, htklen, hk]
  ring

/-! ### Lemmas about the scale trimmer -/

theorem trimGo_preserve (base exponent : Nat) :
    ∀ (fuel : Nat) (a : Int) (s : Nat),
      (trimGo base exponent fuel a s).2 ≤ s ∧
      (trimGo base exponent fuel a s).1
        * (base : Int) ^ (s - (trimGo base exponent fuel a s).2) = a := by
  intro fuel
  induction fuel with
  | zero =>
    intro a s
    simp [trimGo]
  | succ n ih =>
    intro a s
    by_cases hc : exponent < s ∧ a % (base : Int) = 0
    · rw [trimGo, if_pos hc]
      obtain ⟨hle, heq⟩ := ih (a / (base : Int)) (s - 1)
      have hs1 : 1 ≤ s := by omega
      refine ⟨by omega, ?_⟩
      have hd : (base : Int) ∣ a := Int.dvd_of_emod_eq_zero hc.2
      have hpow : s - (trimGo base exponent n (a / (base : Int)) (s - 1)).2
          = (s - 1 - (trimGo base exponent n (a / (base : Int)) (s - 1)).2) + 1 := by
        omega
      rw [hpow, pow_succ, ← mul_assoc, heq]
      exact Int.ediv_mul_cancel hd
    · rw [trimGo, if_neg hc]
      simp

theorem trimGo_exponent (base exponent : Nat) :
    ∀ (fuel : Nat) (a : Int) (s : Nat), exponent ≤ s →
      exponent ≤ (trimGo base exponent fuel a s).2 := by
  intro fuel
  induction fuel with
  | zero =>
    intro a s hs
    simpa [trimGo] using hs
  | succ n ih =>
    intro a s hs
    by_cases hc : exponent < s ∧ a % (base : Int) = 0
    · rw [trimGo, if_pos hc]
      exact ih _ _ (by omega)
    · rw [trimGo, if_neg hc]
      exact hs

theorem trimGo_stop (base exponent : Nat) :
    ∀ (fuel : Nat) (a : Int) (s : Nat), s ≤ fuel →
      ¬(exponent < (trimGo base exponent fuel a s).2 ∧
        (trimGo base exponent fuel a s).1 % (base : Int) = 0) := by
  intro fuel
  induction fuel with
  | zero =>
    intro a s hs
    have hs0 : s = 0 := by omega
    subst hs0
    simp [trimGo]
  | succ n ih =>
    intro a s hs
    by_cases hc : exponent < s ∧ a % (base : Int) = 0
    · rw [trimGo, if_pos hc]
      exact ih _ _ (by omega)
    · rw [trimGo, if_neg hc]
      exact hc

theorem trimGo_noop (base exponent fuel : Nat) (a : Int) (s : Nat)
    (h : ¬(exponent < s ∧ a % (base : Int) = 0)) :
    trimGo base exponent fuel a s = (a, s) := by
  cases fuel with
  | zero => rfl
  | succ n => rw [trimGo, if_neg h]

theorem trimScale_idempotent (v : Dinero) : trimScale (trimScale v) = trimScale v := by
  have hstop := trimGo_stop v.currency.base v.currency.exponent v.scale v.amount v.scale
    (le_refl v.scale)
  show trimScale
      { amount := (trimGo v.currency.base v.currency.exponent v.scale v.amount v.scale).1
        currency := v.currency
        scale := (trimGo v.currency.base v.currency.exponent v.scale v.amount v.scale).2 }
    = trimScale v
  unfold trimScale
  simp only
  rw [trimGo_noop _ _ _ _ _ hstop]

theorem trimGo_step_mul (base exponent : Nat) (hb : 2 ≤ base) (a : Int) :
    ∀ (n s : Nat), exponent ≤ s →
      trimGo base exponent (s + n) (a * (base : Int) ^ n) (s + n)
        = trimGo base exponent s a s := by
  intro n
  induction n with
  | zero =>
    intro s he
    simp
  | succ n ih =>
    intro s he
    have hb0 : (base : Int) ≠ 0 := by
      have h2 : (2 : Int) ≤ (base : Int) := by exact_mod_cast hb
      omega
    have hdvd : (base : Int) ∣ a * (base : Int) ^ (n + 1) :=
      dvd_mul_of_dvd_right (dvd_pow_self _ (Nat.succ_ne_zero n)) _
    have hcond : exponent < s + n + 1 ∧ (a * (base : Int) ^ (n + 1)) % (base : Int) = 0 :=
      ⟨by omega, Int.emod_eq_zero_of_dvd hdvd⟩
    have hdiv : a * (base : Int) ^ (n + 1) / (base : Int) = a * (base : Int) ^ n := by
      rw [pow_succ, ← mul_assoc]
      exact Int.mul_ediv_cancel _ hb0
    show trimGo base exponent (s + n + 1) (a * (base : Int) ^ (n + 1)) (s + n + 1)
        = trimGo base exponent s a s
    rw [trimGo, if_pos hcond, Nat.add_sub_cancel, hdiv]
    exact ih s he

theorem trimScale_raiseScale (v : Dinero) (s' : Nat) (hb : 2 ≤ v.currency.base)
    (he : v.currency.exponent ≤ v.scale) (hs : v.scale ≤ s') :
    trimScale (raiseScale v s') = trimScale v := by
  obtain ⟨d, rfl⟩ : ∃ d, s' = v.scale + d := ⟨s' - v.scale, by omega⟩
  have hsub : v.scale + d - v.scale = d := by omega
  have hkey := trimGo_step_mul v.currency.base v.currency.exponent hb v.amount d v.scale he
  simp only [trimScale, raiseScale, hsub]
  rw [hkey]

theorem allocate_ok_iff (v : Dinero) (ratios : List Int) (rScale : Nat)
    (parts : List Dinero) :
    allocate v ratios rScale = .ok parts ↔
      ¬ hasInvalidRatios ratios ∧
      parts = (allocateParts (v.amount * (v.currency.base : Int) ^ rScale) ratios).map
        (fun a => { amount := a, currency := v.currency, scale := v.scale + rScale }) := by
  unfold allocate
  by_cases h : hasInvalidRatios ratios
  · rw [if_pos h]
    simp [h]
  · rw [if_neg h]
    simp [h, eq_comm]

/-! ### The claims -/

/-- Claim C1: for every Monetary Value v and every valid ratio sequence, the
sum of the amounts of the parts returned by allocate equals v's amount
expressed at the parts' shared output scale v.scale + ratioScale, and every
part carries that shared scale. -/
theorem allocate_sum_exact (v : Dinero) (ratios : List Int) (rScale : Nat)
    (parts : List Dinero) (h : allocate v ratios rScale = .ok parts) :
    (parts.map Dinero.amount).sum = v.amount * (v.currency.base : Int) ^ rScale ∧
    ∀ p ∈ parts, p.scale = v.scale + rScale := by
  obtain ⟨hvalid, rfl⟩ := (allocate_ok_iff v ratios rScale parts).mp h
  constructor
  · rw [List.map_map]
    have hcomp : (Dinero.amount ∘ fun a =>
        ({ amount := a, currency := v.currency, scale := v.scale + rScale } : Dinero)) = id := rfl
    rw [hcomp, List.map_id]
    exact allocateParts_sum _ _ hvalid
  · intro p hp
    simp only [List.mem_map] at hp
    obtain ⟨a, _, rfl⟩ := hp
    rfl

/-- Witness for allocate_sum_exact at 400 USD split by [505, 495] at ratio
scale 1. -/
theorem allocate_sum_exact_check :
    (([{ amount := 2020, currency := USD, scale := 3 },
       { amount := 1980, currency := USD, scale := 3 }] : List Dinero).map Dinero.amount).sum
        = (dinero 400 USD none).amount * ((dinero 400 USD none).currency.base : Int) ^ (1 : Nat) ∧
    ∀ p ∈ ([{ amount := 2020, currency := USD, scale := 3 },
       { amount := 1980, currency := USD, scale := 3 }] : List Dinero),
      p.scale = (dinero 400 USD none).scale + 1 :=
  allocate_sum_exact (dinero 400 USD none) [505, 495] 1 _ (by decide)

/-- Claim C2: creating 1995 EUR at the default scale, multiplying by the
scaled multiplier 55 at scale 3, and adding the product back to the original
yields amount 2104725 at scale 5. -/
theorem vat_example :
    add (dinero 1995 EUR none)
        (multiply (dinero 1995 EUR none) { amount := 55, scale := 3 }) =
      .ok { amount := 2104725, currency := EUR, scale := 5 } := by decide

/-- Claim C3 counterexample: subtracting 400 USD at scale 2 from 104545 USD
at scale 4 yields amount 64545 at scale 4 under scale normalization, not the
claimed amount 104145. -/
theorem subtract_example_counter :
    subtract (dinero 104545 USD (some 4)) (dinero 400 USD none) =
      .ok { amount := 64545, currency := USD, scale := 4 } ∧
    subtract (dinero 104545 USD (some 4)) (dinero 400 USD none) ≠
      .ok { amount := 104145, currency := USD, scale := 4 } := by decide

/-- Claim C3 (amended): add and subtract raise both operands to the maximum
of the two scales and then combine the amounts, the result scale being that
maximum; adding 400 USD at scale 2 and 104545 USD at scale 4 gives 144545 at
scale 4, and subtracting 400 USD at scale 2 from 104545 USD at scale 4 gives
amount 64545 at scale 4. -/
theorem add_subtract_normalized :
    (∀ a b : Dinero, a.currency = b.currency →
      add a b = .ok
        { amount := a.amount * (a.currency.base : Int) ^ (max a.scale b.scale - a.scale)
            + b.amount * (b.currency.base : Int) ^ (max a.scale b.scale - b.scale)
          currency := a.currency
          scale := max a.scale b.scale } ∧
      subtract a b = .ok
        { amount := a.amount * (a.currency.base : Int) ^ (max a.scale b.scale - a.scale)
            - b.amount * (b.currency.base : Int) ^ (max a.scale b.scale - b.scale)
          currency := a.currency
          scale := max a.scale b.scale }) ∧
    add (dinero 400 USD none) (dinero 104545 USD (some 4)) =
      .ok { amount := 144545, currency := USD, scale := 4 } ∧
    subtract (dinero 104545 USD (some 4)) (dinero 400 USD none) =
      .ok { amount := 64545, currency := USD, scale := 4 } := by
  refine ⟨fun a b hc => ⟨?_, ?_⟩, by decide, by decide⟩
  · simp [add, raiseScale, hc]
  · simp [subtract, raiseScale, hc]

/-- Witness for add_subtract_normalized on two same-currency values of
different scales. -/
theorem add_subtract_normalized_check :
    add (dinero 1 USD none) (dinero 2 USD (some 3)) =
      .ok { amount := 12, currency := USD, scale := 3 } := by
  have h := (add_subtract_normalized.1 (dinero 1 USD none) (dinero 2 USD (some 3)) rfl).1
  exact h.trans (by decide)

/-- Claim C4: multiply by a scaled multiplier is exact: the result amount is
the product of the amounts and the result scale the sum of the scales. -/
theorem multiply_exact (v : Dinero) (m : ScaledAmount) :
    multiply v m =
      { amount := v.amount * m.amount, currency := v.currency, scale := v.scale + m.scale } :=
  rfl

/-- Claim C5: allocate always returns exactly as many parts as ratios, in the
same order; allocating 400 USD by [505, 495] at ratio scale 1 returns first
2020 at scale 3 and second 1980 at scale 3. -/
theorem allocate_length_order :
    (∀ (v : Dinero) (ratios : List Int) (s : Nat) (parts : List Dinero),
        allocate v ratios s = .ok parts → parts.length = ratios.length) ∧
    allocate (dinero 400 USD none) [505, 495] 1 =
      .ok [{ amount := 2020, currency := USD, scale := 3 },
           { amount := 1980, currency := USD, scale := 3 }] := by
  constructor
  · intro v ratios s parts h
    obtain ⟨hvalid, rfl⟩ := (allocate_ok_iff v ratios s parts).mp h
    rw [List.length_map, allocateParts_length]
  · decide

/-- Witness for the length part of allocate_length_order on a two-way even
split. -/
theorem allocate_length_order_check :
    ([{ amount := 5, currency := USD, scale := 2 },
      { amount := 5, currency := USD, scale := 2 }] : List Dinero).length
      = ([1, 1] : List Int).length :=
  allocate_length_order.1 (dinero 10 USD none) [1, 1] 0 _ (by decide)

/-- Claim C6 counterexample: on a value whose scale is already below the
currency exponent the trimmer returns it unchanged, so the returned scale is
below currency.exponent, contradicting the claimed smallest-scale-at-least-
exponent characterization. -/
theorem trimScale_below_exponent_counter :
    trimScale { amount := 35, currency := USD, scale := 0 } =
      { amount := 35, currency := USD, scale := 0 } ∧
    (trimScale { amount := 35, currency := USD, scale := 0 }).scale < USD.exponent := by
  decide

/-- Claim C6 (amended): for every value whose scale is at least the currency
exponent, trimScale preserves the represented rational number, returns a
scale between the exponent and the original scale, divides out the base only
while it divides evenly so the result is minimal among scales at least the
exponent; trimming 3000000 USD at scale 6 gives 300 at scale 2, and 35 USD
at scale 3 is unchanged. -/
theorem trimScale_spec (v : Dinero) (he : v.currency.exponent ≤ v.scale) :
    (trimScale v).currency = v.currency ∧
    (trimScale v).scale ≤ v.scale ∧
    v.currency.exponent ≤ (trimScale v).scale ∧
    (trimScale v).amount * (v.currency.base : Int) ^ (v.scale - (trimScale v).scale)
      = v.amount ∧
    (∀ t, v.currency.exponent ≤ t → t < (trimScale v).scale →
      ¬ ((v.currency.base : Int) ^ ((trimScale v).scale - t) ∣ (trimScale v).amount)) ∧
    trimScale (dinero 3000000 USD (some 6)) = dinero 300 USD (some 2) ∧
    trimScale (dinero 35 USD (some 3)) = dinero 35 USD (some 3) := by
  obtain ⟨hle, heq⟩ :=
    trimGo_preserve v.currency.base v.currency.exponent v.scale v.amount v.scale
  have hexp :=
    trimGo_exponent v.currency.base v.currency.exponent v.scale v.amount v.scale he
  have hstop :=
    trimGo_stop v.currency.base v.currency.exponent v.scale v.amount v.scale
      (le_refl v.scale)
  refine ⟨rfl, hle, hexp, heq, ?_, by decide, by decide⟩
  intro t ht1 ht2 hdvd
  have hmod : (trimScale v).amount % (v.currency.base : Int) = 0 := by
    apply Int.emod_eq_zero_of_dvd
    exact dvd_trans (dvd_pow_self _ (by omega : (trimScale v).scale - t ≠ 0)) hdvd
  exact hstop ⟨lt_of_le_of_lt ht1 ht2, hmod⟩

/-- Witness for trimScale_spec: the preservation equation at 3000000 USD at
scale 6. -/
theorem trimScale_spec_check :
    (trimScale (dinero 3000000 USD (some 6))).amount
        * ((dinero 3000000 USD (some 6)).currency.base : Int)
          ^ ((dinero 3000000 USD (some 6)).scale - (trimScale (dinero 3000000 USD (some 6))).scale)
      = (dinero 3000000 USD (some 6)).amount :=
  (trimScale_spec (dinero 3000000 USD (some 6)) (by decide)).2.2.2.1

/-- Claim C7 counterexample: for 7 USD at scale 0 (below the USD exponent of
2) and target scale 1, raising then trimming gives 70 at scale 1 while
trimming directly leaves 7 at scale 0, so the two trims differ. -/
theorem raise_trim_counter :
    trimScale (raiseScale { amount := 7, currency := USD, scale := 0 } 1)
      ≠ trimScale { amount := 7, currency := USD, scale := 0 } := by decide

/-- Claim C7 (amended): for every value whose scale is at least the currency
exponent (base at least 2) and every target scale at least the value's scale,
raising then trimming equals trimming directly; and trimScale is idempotent
on every value. -/
theorem raise_then_trim (v : Dinero) (s' : Nat) (hb : 2 ≤ v.currency.base)
    (he : v.currency.exponent ≤ v.scale) (hs : v.scale ≤ s') :
    trimScale (raiseScale v s') = trimScale v ∧
    ∀ w : Dinero, trimScale (trimScale w) = trimScale w :=
  ⟨trimScale_raiseScale v s' hb he hs, trimScale_idempotent⟩

/-- Witness for raise_then_trim at 300 USD scale 2 raised to scale 5. -/
theorem raise_then_trim_check :
    trimScale (raiseScale (dinero 300 USD none) 5) = trimScale (dinero 300 USD none) :=
  (raise_then_trim (dinero 300 USD none) 5 (by decide) (by decide) (by decide)).1

/-- Claim C8: add, subtract and the whole comparison family fail with
CurrencyMismatch whenever the two arguments have different currencies, never
auto-converting; in particular adding a USD value and a EUR value fails. -/
theorem currency_mismatch_rejection :
    (∀ a b : Dinero, a.currency ≠ b.currency →
      add a b = .error .currencyMismatch ∧
      subtract a b = .error .currencyMismatch ∧
      compareValues a b = .error .currencyMismatch ∧
      equal a b = .error .currencyMismatch ∧
      greaterThan a b = .error .currencyMismatch ∧
      lessThan a b = .error .currencyMismatch ∧
      greaterThanOrEqual a b = .error .currencyMismatch ∧
      lessThanOrEqual a b = .error .currencyMismatch) ∧
    add (dinero 100 USD none) (dinero 100 EUR none) = .error .currencyMismatch := by
  refine ⟨fun a b h => ?_, by decide⟩
  refine ⟨?_, ?_, ?_, ?_, ?_, ?_, ?_, ?_⟩ <;>
    simp [add, subtract, compareValues, equal, greaterThan, lessThan,
      greaterThanOrEqual, lessThanOrEqual, h]

/-- Witness for currency_mismatch_rejection: subtracting a HUF value from a
USD value fails with CurrencyMismatch. -/
theorem currency_mismatch_rejection_check :
    subtract (dinero 1 USD none) (dinero 1 HUF none) = .error .currencyMismatch :=
  (currency_mismatch_rejection.1 (dinero 1 USD none) (dinero 1 HUF none) (by decide)).2.1

/-- Claim C9: allocate fails with InvalidRatios exactly when the ratios are
empty, all zero, or contain a negative entry, and otherwise returns one part
per ratio; a zero ratio among valid ratios yields a zero-valued part in
place, as in allocating 400 USD by [1, 0]. -/
theorem allocate_invalid_ratios :
    (∀ (v : Dinero) (ratios : List Int) (s : Nat),
      (allocate v ratios s = .error .invalidRatios ↔
        (ratios = [] ∨ (∀ r ∈ ratios, r = 0) ∨ (∃ r ∈ ratios, r < 0))) ∧
      (¬(ratios = [] ∨ (∀ r ∈ ratios, r = 0) ∨ (∃ r ∈ ratios, r < 0)) →
        ∃ parts, allocate v ratios s = .ok parts ∧ parts.length = ratios.length)) ∧
    allocate (dinero 400 USD none) [1, 0] 0 =
      .ok [{ amount := 400, currency := USD, scale := 2 },
           { amount := 0, currency := USD, scale := 2 }] := by
  refine ⟨fun v ratios s => ⟨⟨?_, ?_⟩, ?_⟩, by decide⟩
  · intro herr
    by_contra hnot
    have h' : ¬ hasInvalidRatios ratios := hnot
    unfold allocate at herr
    rw [if_neg h'] at herr
    exact absurd herr (by simp)
  · intro hinv
    have h' : hasInvalidRatios ratios := hinv
    unfold allocate
    rw [if_pos h']
  · intro hnot
    have h' : ¬ hasInvalidRatios ratios := hnot
    refine ⟨(allocateParts (v.amount * (v.currency.base : Int) ^ s) ratios).map
      (fun a => { amount := a, currency := v.currency, scale := v.scale + s }), ?_, ?_⟩
    · unfold allocate
      rw [if_neg h']
    · rw [List.length_map, allocateParts_length]

/-- Witness for allocate_invalid_ratios: empty ratios fail with
InvalidRatios. -/
theorem allocate_invalid_ratios_check :
    allocate (dinero 400 USD none) [] 0 = .error .invalidRatios :=
  ((allocate_invalid_ratios.1 (dinero 400 USD none) [] 0).1).mpr (Or.inl rfl)

/-- Claim C10: creating a value without an explicit scale defaults the scale
to the currency exponent and toSnapshot reports it; the bundled BSD and HUF
descriptors have base 10 and exponent 2, so values constructed from them
default to scale 2. -/
theorem default_scale_spec :
    (∀ (a : Int) (c : Currency), (dinero a c none).scale = c.exponent ∧
      (toSnapshot (dinero a c none)).scale = c.exponent) ∧
    BSD.base = 10 ∧ BSD.exponent = 2 ∧ HUF.base = 10 ∧ HUF.exponent = 2 ∧
    (∀ a : Int, (dinero a BSD none).scale = 2 ∧ (dinero a HUF none).scale = 2) :=
  ⟨fun _ _ => ⟨rfl, rfl⟩, rfl, rfl, rfl, rfl, fun _ => ⟨rfl, rfl⟩⟩
